import Mathlib

/-!
Verification of the anagram index implemented in `src/anagrams.py`.

Words are modelled as `List Char` (Python `str`).  The class `Anagrams`
stores its dictionary `self.anagrams : Dict[str, List[str]]`; Python
dictionaries preserve key insertion order and `setdefault(k, []).append(w)`
either appends to the existing bucket of `k` or adds a fresh singleton
bucket at the end, which is exactly what the association-list operations
below do.  Python's `str.lower` is modelled for the ASCII range (the spec
asks for "ASCII case-insensitive at minimum") and `sorted` sorts the
characters by code point, modelled by `List.insertionSort (· ≤ ·)` where
`≤` on `Char` compares code points.
-/

/-- Python `str.lower`, restricted to ASCII: `A`–`Z` (code points 65–90)
are shifted by 32 onto `a`–`z`; every other character is unchanged. -/
def asciiLower (c : Char) : Char :=
  if 65 ≤ c.toNat ∧ c.toNat ≤ 90 then Char.ofNat (c.toNat + 32) else c

/-- `word.replace(' ', '')` from `anagram_hash`: drops every space
character (U+0020) and nothing else. -/
def removeSpaces (w : List Char) : List Char :=
  w.filter (fun c => c ≠ ' ')

/-- `''.join(sorted(list(word)))`: sort the characters by code point. -/
def pySorted (w : List Char) : List Char :=
  List.insertionSort (fun a b => a ≤ b) w

/-- `Anagrams.anagram_hash` (src/anagrams.py lines 51-55):
`word = word.replace(' ', '').lower(); return ''.join(sorted(list(word)))`. -/
def anagram_hash (w : List Char) : List Char :=
  pySorted ((removeSpaces w).map asciiLower)

/-- `word.replace('\n', '')` from `store_anagram` (line 48). -/
def stripNewlines (w : List Char) : List Char :=
  w.filter (fun c => c ≠ '\n')

/-- The dictionary `self.anagrams`, as an insertion-ordered association
list from canonical keys to buckets of stored words. -/
abbrev Index := List (List Char × List (List Char))

/-- `self.anagrams.setdefault(k, []).append(w)` (line 49): append `w` to
the bucket of `k` if a bucket exists, otherwise add the new key with the
singleton bucket at the end (Python dicts append new keys last). -/
def addToBucket : Index → List Char → List Char → Index
  | [], k, w => [(k, [w])]
  | (k', ws) :: rest, k, w =>
      if k' = k then (k', ws ++ [w]) :: rest
      else (k', ws) :: addToBucket rest k w

/-- `Anagrams.store_anagram` (lines 47-49). -/
def store_anagram (idx : Index) (word : List Char) : Index :=
  addToBucket idx (anagram_hash (stripNewlines word)) (stripNewlines word)

/-- `self.anagrams.get(k)`: first (unique) matching key, else `None`. -/
def lookup : Index → List Char → Option (List (List Char))
  | [], _ => none
  | (k', ws) :: rest, k => if k' = k then some ws else lookup rest k

/-- `Anagrams.get_anagrams` (lines 57-60): note that the query is hashed
as-is; unlike `store_anagram` it does not strip newline characters. -/
def get_anagrams (idx : Index) (word : List Char) : Option (List (List Char)) :=
  lookup idx (anagram_hash word)

/-- The loop of `__post_init__` over already-decoded lines: store each
line in turn, starting from the empty dictionary. -/
def buildIndex (lines : List (List Char)) : Index :=
  List.foldl store_anagram [] lines

/-- The bucket of `k`, defaulting to the empty bucket when `k` is absent. -/
def bucketAt (idx : Index) (k : List Char) : List (List Char) :=
  (lookup idx k).getD []

/-- Removal of one trailing line terminator, the normalization the spec
describes for raw source lines. -/
def removeTrailingNewline (l : List Char) : List Char :=
  if l.getLast? = some '\n' then l.dropLast else l

/-- The seven source lines of the spec's concrete scenario, as produced
by `readlines` (each line carries its terminator). -/
def sampleLines : List (List Char) :=
  ["dictionary\n".data, "indicatory\n".data, "tea spoon\n".data,
   "teaspoon\n".data, "FooBar\n".data, "foobar\n".data, "A-and-R\n".data]

/-- The Python exceptions that can escape `Anagrams.__post_init__`:
`RuntimeError(msg)` raised by `read_file` (the spec's `FormatError`), and
`UnicodeDecodeError` raised by `str(word, 'utf-8')` on undecodable bytes
(only `TypeError` is caught at line 43). -/
inductive PyError where
  | runtimeError (msg : List Char)
  | unicodeDecodeError
deriving DecidableEq

/-- Whether an error is the spec's `FormatError` (the `RuntimeError`
raised with the `Unsupported file` message). -/
def isFormatError : PyError → Bool
  | .runtimeError _ => true
  | .unicodeDecodeError => false

/-- One line as returned by `readlines`: the gzip branch opens the file in
binary mode (`gzip.open(path, 'r')` is `'rb'`), so its lines are bytes;
the plain branch opens in text mode, so its lines are already strings. -/
inductive SourceLine where
  | bytes (bs : List Nat)
  | text (s : List Char)

/-- Abstraction of the on-disk source.  Gzip decompression and OS reads
are library I/O outside this repository, so the file is modelled by the
outcome `read_file` observes: a valid gzip file (decompressed payload,
split into byte lines), a non-gzip file whose contents decode as text, or
a non-gzip file whose contents fail text decoding. -/
inductive FileContent where
  | gzipped (byteLines : List (List Nat))
  | plainText (lines : List (List Char))
  | undecodable

/-- The message of the `RuntimeError` at line 17:
`f'Unsupported file {words_file_path}'`. -/
def unsupportedMsg (path : List Char) : List Char :=
  "Unsupported file ".data ++ path

/-- `read_file` (lines 7-19): try gzip first; on `BadGzipFile` fall back
to plain text; if that raises `UnicodeDecodeError`, raise
`RuntimeError(f'Unsupported file {path}')`. -/
def read_file (path : List Char) : FileContent → Except PyError (List SourceLine)
  | .gzipped byteLines => .ok (byteLines.map SourceLine.bytes)
  | .plainText lines => .ok (lines.map SourceLine.text)
  | .undecodable => .error (.runtimeError (unsupportedMsg path))

/-- Is `b` a UTF-8 continuation byte (`10xxxxxx`)? -/
def isCont (b : Nat) : Bool :=
  128 ≤ b && b < 192

/-- Strict UTF-8 decoding of a byte sequence, as Python's `utf-8` codec
performs it: rejects stray continuation bytes, overlong encodings,
surrogate code points and code points above U+10FFFF. -/
def utf8Decode : List Nat → Option (List Char)
  | [] => some []
  | b :: rest =>
    if b < 128 then
      (utf8Decode rest).map (fun cs => Char.ofNat b :: cs)
    else if b < 194 then
      none
    else if b < 224 then
      match rest with
      | b1 :: rest2 =>
        if isCont b1 then
          (utf8Decode rest2).map (fun cs => Char.ofNat ((b - 192) * 64 + (b1 - 128)) :: cs)
        else none
      | [] => none
    else if b < 240 then
      match rest with
      | b1 :: b2 :: rest3 =>
        if isCont b1 && isCont b2 then
          if 2048 ≤ (b - 224) * 4096 + (b1 - 128) * 64 + (b2 - 128) ∧
              ((b - 224) * 4096 + (b1 - 128) * 64 + (b2 - 128) < 55296 ∨
                57343 < (b - 224) * 4096 + (b1 - 128) * 64 + (b2 - 128)) then
            (utf8Decode rest3).map
              (fun cs => Char.ofNat ((b - 224) * 4096 + (b1 - 128) * 64 + (b2 - 128)) :: cs)
          else none
        else none
      | _ => none
    else if b < 245 then
      match rest with
      | b1 :: b2 :: b3 :: rest4 =>
        if isCont b1 && isCont b2 && isCont b3 then
          if 65536 ≤ (b - 240) * 262144 + (b1 - 128) * 4096 + (b2 - 128) * 64 + (b3 - 128) ∧
              (b - 240) * 262144 + (b1 - 128) * 4096 + (b2 - 128) * 64 + (b3 - 128) < 1114112 then
            (utf8Decode rest4).map
              (fun cs =>
                Char.ofNat ((b - 240) * 262144 + (b1 - 128) * 4096 + (b2 - 128) * 64 + (b3 - 128)) :: cs)
          else none
        else none
      | _ => none
    else none

/-- The decode step of `__post_init__` (lines 40-44): `str(word, 'utf-8')`
decodes a bytes line or raises `UnicodeDecodeError`; on a text line the
call raises `TypeError`, which is caught and the line kept as is. -/
def decodeLine : SourceLine → Except PyError (List Char)
  | .text s => .ok s
  | .bytes bs =>
    match utf8Decode bs with
    | some s => .ok s
    | none => .error .unicodeDecodeError

/-- The loop of `__post_init__` (lines 39-45) over the raw lines: decode
each line then store it; an uncaught exception aborts the construction. -/
def processLines : Index → List SourceLine → Except PyError Index
  | idx, [] => .ok idx
  | idx, l :: rest =>
    match decodeLine l with
    | .error e => .error e
    | .ok w => processLines (store_anagram idx w) rest

/-- `Anagrams(path)` end to end: `read_file` then the `__post_init__`
loop; a raised exception yields no index. -/
def anagramsInit (path : List Char) (content : FileContent) : Except PyError Index :=
  match read_file path content with
  | .error e => .error e
  | .ok lines => processLines [] lines

section CharFacts

theorem char_le_iff_toNat {a b : Char} : a ≤ b ↔ a.toNat ≤ b.toNat :=
  Iff.rfl

theorem char_eq_of_toNat_eq {a b : Char} (h : a.toNat = b.toNat) : a = b :=
  Char.ext (UInt32.ext h)

theorem toNat_ofNat_of_lt {n : Nat} (h : n < 55296) : (Char.ofNat n).toNat = n := by
  rw [Char.ofNat, dif_pos (Or.inl h)]
  rfl

theorem asciiLower_toNat_of_upper {c : Char} (h : 65 ≤ c.toNat ∧ c.toNat ≤ 90) :
    (asciiLower c).toNat = c.toNat + 32 := by
  rw [asciiLower, if_pos h, toNat_ofNat_of_lt (by omega)]

theorem asciiLower_of_not_upper {c : Char} (h : ¬(65 ≤ c.toNat ∧ c.toNat ≤ 90)) :
    asciiLower c = c := by
  rw [asciiLower, if_neg h]

theorem asciiLower_idem (c : Char) : asciiLower (asciiLower c) = asciiLower c := by
  by_cases h : 65 ≤ c.toNat ∧ c.toNat ≤ 90
  · have h1 := asciiLower_toNat_of_upper h
    exact asciiLower_of_not_upper (by omega)
  · rw [asciiLower_of_not_upper h]
    exact asciiLower_of_not_upper h

/-- `asciiLower` maps no character onto a character below `a` (code point
97) other than that character itself; in particular space and newline are
fixed and are not images of other characters. -/
theorem asciiLower_eq_low {c t : Char} (ht : t.toNat < 97) (h : asciiLower c = t) :
    c = t := by
  by_cases hc : 65 ≤ c.toNat ∧ c.toNat ≤ 90
  · have h1 := asciiLower_toNat_of_upper hc
    rw [h] at h1
    omega
  · rwa [asciiLower_of_not_upper hc] at h

end CharFacts

section IndexFacts

theorem lookup_addToBucket (idx : Index) (k w k' : List Char) :
    lookup (addToBucket idx k w) k' =
      if k' = k then some (bucketAt idx k ++ [w]) else lookup idx k' := by
  induction idx with
  | nil =>
    by_cases h : k' = k
    · subst h
      simp [addToBucket, lookup, bucketAt]
    · have h' : ¬k = k' := fun hh => h hh.symm
      simp [addToBucket, lookup, bucketAt, h, h']
  | cons p rest ih =>
    obtain ⟨k0, ws0⟩ := p
    simp only [addToBucket]
    by_cases h0 : k0 = k
    · subst h0
      simp only [if_pos rfl, lookup, bucketAt]
      by_cases h1 : k0 = k'
      · subst h1
        simp [lookup]
      · have h1' : ¬k' = k0 := fun hh => h1 hh.symm
        simp [lookup, h1, h1']
    · rw [if_neg h0]
      by_cases h1 : k0 = k'
      · subst h1
        rw [if_neg (fun hh : k0 = k => h0 hh)]
        simp [lookup]
      · simp only [lookup, if_neg h1, ih]
        by_cases h2 : k' = k
        · subst h2
          simp [bucketAt, lookup, if_neg h1]
        · simp [h2]

theorem lookup_store (idx : Index) (l k : List Char) :
    lookup (store_anagram idx l) k =
      if k = anagram_hash (stripNewlines l)
      then some (bucketAt idx k ++ [stripNewlines l])
      else lookup idx k := by
  rw [store_anagram, lookup_addToBucket]
  by_cases h : k = anagram_hash (stripNewlines l)
  · rw [if_pos h, if_pos h, h]
  · rw [if_neg h, if_neg h]

theorem bucketAt_foldl (ls : List (List Char)) (idx : Index) (k : List Char) :
    bucketAt (List.foldl store_anagram idx ls) k =
      bucketAt idx k ++
        (ls.map stripNewlines).filter (fun w => decide (anagram_hash w = k)) := by
  induction ls generalizing idx with
  | nil => simp
  | cons l ls ih =>
    simp only [List.foldl_cons, List.map_cons, List.filter_cons]
    rw [ih]
    by_cases h : anagram_hash (stripNewlines l) = k
    · rw [bucketAt, lookup_store, if_pos h.symm]
      simp [h, bucketAt]
    · rw [bucketAt, lookup_store, if_neg (fun hh => h hh.symm)]
      simp [h, bucketAt]

theorem lookup_foldl_none (ls : List (List Char)) (idx : Index) (k : List Char) :
    lookup (List.foldl store_anagram idx ls) k = none ↔
      lookup idx k = none ∧
        (ls.map stripNewlines).filter (fun w => decide (anagram_hash w = k)) = [] := by
  induction ls generalizing idx with
  | nil => simp
  | cons l ls ih =>
    simp only [List.foldl_cons, List.map_cons, List.filter_cons]
    rw [ih]
    by_cases h : anagram_hash (stripNewlines l) = k
    · constructor
      · rintro ⟨h1, _⟩
        rw [lookup_store, if_pos h.symm] at h1
        cases h1
      · rintro ⟨_, h2⟩
        simp [h] at h2
    · rw [lookup_store, if_neg (fun hh => h hh.symm)]
      simp [h]

theorem lookup_buildIndex_some {lines : List (List Char)} {k : List Char}
    {ws : List (List Char)} (h : lookup (buildIndex lines) k = some ws) :
    ws = (lines.map stripNewlines).filter (fun w => decide (anagram_hash w = k)) := by
  have h' : lookup (List.foldl store_anagram [] lines) k = some ws := h
  have hb := bucketAt_foldl lines [] k
  rw [bucketAt, h', Option.getD_some] at hb
  simpa [bucketAt, lookup] using hb

theorem lookup_buildIndex_none {lines : List (List Char)} {k : List Char} :
    lookup (buildIndex lines) k = none ↔
      (lines.map stripNewlines).filter (fun w => decide (anagram_hash w = k)) = [] := by
  rw [buildIndex, lookup_foldl_none]
  simp [lookup]

theorem lookup_mem {idx : Index} {k : List Char} {ws : List (List Char)}
    (h : lookup idx k = some ws) : (k, ws) ∈ idx := by
  induction idx with
  | nil => cases h
  | cons p rest ih =>
    obtain ⟨k0, ws0⟩ := p
    by_cases h0 : k0 = k
    · subst h0
      rw [lookup, if_pos rfl] at h
      cases h
      exact List.mem_cons_self _ _
    · rw [lookup, if_neg h0] at h
      exact List.mem_cons_of_mem _ (ih h)

theorem buckets_nonempty_addToBucket {idx : Index} (k w : List Char)
    (h : ∀ p ∈ idx, p.2 ≠ []) : ∀ p ∈ addToBucket idx k w, p.2 ≠ [] := by
  induction idx with
  | nil =>
    intro p hp
    simp only [addToBucket, List.mem_singleton] at hp
    subst hp
    simp
  | cons q rest ih =>
    obtain ⟨k0, ws0⟩ := q
    simp only [addToBucket]
    by_cases h0 : k0 = k
    · rw [if_pos h0]
      intro p hp
      rcases List.mem_cons.1 hp with rfl | hp
      · simp
      · exact h p (List.mem_cons_of_mem _ hp)
    · rw [if_neg h0]
      intro p hp
      rcases List.mem_cons.1 hp with rfl | hp
      · exact h _ (List.mem_cons_self _ _)
      · exact ih (fun q hq => h q (List.mem_cons_of_mem _ hq)) p hp

theorem buckets_nonempty_foldl (ls : List (List Char)) (idx : Index)
    (h : ∀ p ∈ idx, p.2 ≠ []) : ∀ p ∈ List.foldl store_anagram idx ls, p.2 ≠ [] := by
  induction ls generalizing idx with
  | nil => exact h
  | cons l ls ih =>
    exact ih _ (buckets_nonempty_addToBucket _ _ h)

end IndexFacts

section HashFacts

theorem anagram_hash_sorted (w : List Char) :
    List.Sorted (fun a b : Char => a ≤ b) (anagram_hash w) :=
  List.sorted_insertionSort _ _

theorem anagram_hash_perm (w : List Char) :
    (anagram_hash w).Perm ((removeSpaces w).map asciiLower) :=
  List.perm_insertionSort _ _

theorem mem_anagram_hash {c : Char} {w : List Char} :
    c ∈ anagram_hash w ↔ ∃ x, x ∈ w ∧ x ≠ ' ' ∧ asciiLower x = c := by
  rw [anagram_hash, pySorted, (List.perm_insertionSort _ _).mem_iff]
  simp only [List.mem_map, removeSpaces, List.mem_filter, decide_not, Bool.not_eq_eq_eq_not,
    Bool.not_true, decide_eq_false_iff_not]
  constructor
  · rintro ⟨x, ⟨hx, hs⟩, hl⟩
    exact ⟨x, hx, hs, hl⟩
  · rintro ⟨x, hx, hs, hl⟩
    exact ⟨x, ⟨hx, hs⟩, hl⟩

theorem space_not_mem_anagram_hash (w : List Char) : ' ' ∉ anagram_hash w := by
  intro hc
  obtain ⟨x, _, hs, hl⟩ := mem_anagram_hash.1 hc
  exact hs (asciiLower_eq_low (by decide) hl)

theorem newline_not_mem_anagram_hash {w : List Char} (h : '\n' ∉ w) :
    '\n' ∉ anagram_hash w := by
  intro hc
  obtain ⟨x, hx, _, hl⟩ := mem_anagram_hash.1 hc
  have hxn : x = '\n' := asciiLower_eq_low (by decide) hl
  exact h (hxn ▸ hx)

theorem newline_mem_anagram_hash {w : List Char} (h : '\n' ∈ w) :
    '\n' ∈ anagram_hash w :=
  mem_anagram_hash.2 ⟨'\n', h, by decide, by decide⟩

theorem newline_not_mem_stripNewlines (l : List Char) : '\n' ∉ stripNewlines l := by
  simp [stripNewlines]

theorem map_eq_self_of_mem {α : Type} {f : α → α} :
    ∀ {l : List α}, (∀ a ∈ l, f a = a) → l.map f = l
  | [], _ => rfl
  | a :: l, h => by
    rw [List.map_cons, h a (List.mem_cons_self _ _),
      map_eq_self_of_mem (fun b hb => h b (List.mem_cons_of_mem _ hb))]

theorem asciiLower_fixed_on_hash {c : Char} {w : List Char} (h : c ∈ anagram_hash w) :
    asciiLower c = c := by
  obtain ⟨x, _, _, hl⟩ := mem_anagram_hash.1 h
  rw [← hl, asciiLower_idem]

end HashFacts

section LineFacts

theorem stripNewlines_eq_removeTrailingNewline :
    ∀ (l : List Char), '\n' ∉ l.dropLast → stripNewlines l = removeTrailingNewline l
  | [] => fun _ => rfl
  | [a] => fun _ => by
    by_cases h : a = '\n'
    · subst h
      simp [stripNewlines, removeTrailingNewline]
    · simp [stripNewlines, removeTrailingNewline, h]
  | a :: b :: l => fun h => by
    rw [show (a :: b :: l).dropLast = a :: (b :: l).dropLast from rfl, List.mem_cons] at h
    push_neg at h
    obtain ⟨ha, ht⟩ := h
    have hstep : stripNewlines (a :: b :: l) = a :: stripNewlines (b :: l) := by
      simp [stripNewlines, List.filter_cons, Ne.symm ha]
    have hstep2 : removeTrailingNewline (a :: b :: l) = a :: removeTrailingNewline (b :: l) := by
      rw [removeTrailingNewline, removeTrailingNewline, List.getLast?_cons_cons]
      by_cases hg : (b :: l).getLast? = some '\n'
      · rw [if_pos hg, if_pos hg]
        rfl
      · rw [if_neg hg, if_neg hg]
    rw [hstep, hstep2, stripNewlines_eq_removeTrailingNewline (b :: l) ht]

end LineFacts

/-- Claim C1: `anagram_hash` is exactly the spec's canonical key: its
output is sorted by code point, and it is a permutation of the input with
every space character (and only space characters) removed and the
remaining characters lowercased.  Determinism and purity are immediate:
`anagram_hash` is a Lean function of its argument alone. -/
theorem anagram_hash_canonical (w : List Char) :
    List.Sorted (fun a b : Char => a.toNat ≤ b.toNat) (anagram_hash w) ∧
    (anagram_hash w).Perm ((w.filter (fun c => c ≠ ' ')).map asciiLower) := by
  constructor
  · exact (anagram_hash_sorted w).imp (fun h => char_le_iff_toNat.1 h)
  · exact anagram_hash_perm w

/-- Claim C10: `anagram_hash` is idempotent — its output contains no
space, is already lowercase, and is already sorted, so hashing it again
returns it unchanged. -/
theorem anagram_hash_idempotent (w : List Char) :
    anagram_hash (anagram_hash w) = anagram_hash w := by
  have h1 : removeSpaces (anagram_hash w) = anagram_hash w := by
    rw [removeSpaces, List.filter_eq_self]
    intro c hc
    exact decide_eq_true fun heq => space_not_mem_anagram_hash w (heq ▸ hc)
  have h2 : (anagram_hash w).map asciiLower = anagram_hash w :=
    map_eq_self_of_mem (fun c hc => asciiLower_fixed_on_hash hc)
  conv_lhs => rw [anagram_hash, h1, h2]
  exact List.Sorted.insertionSort_eq (anagram_hash_sorted w)

/-- Claim C2: in an index built by `__post_init__`, every word stored in
a bucket hashes to that bucket's key, so each stored word is reachable
exactly via its own canonical key; the model has no mutating operation
after `buildIndex` (`get_anagrams` is read-only). -/
theorem buildIndex_key_invariant (lines : List (List Char)) (k : List Char)
    (ws : List (List Char)) (h : lookup (buildIndex lines) k = some ws) :
    ∀ w ∈ ws, anagram_hash w = k := by
  intro w hw
  rw [lookup_buildIndex_some h] at hw
  exact of_decide_eq_true (List.mem_filter.1 hw).2

/-- Witness for C2 on the one-line source `acb`: its stored word hashes
to the key its bucket is filed under. -/
theorem buildIndex_key_invariant_witness :
    anagram_hash ['a', 'c', 'b'] = ['a', 'b', 'c'] :=
  buildIndex_key_invariant [['a', 'c', 'b']] ['a', 'b', 'c'] [['a', 'c', 'b']]
    (by decide) ['a', 'c', 'b'] (by decide)

/-- Claim C3: queries with equal canonical keys get identical results,
and if a word `A` is stored in some bucket then looking up any `B` with
the same canonical key returns a bucket containing `A`; case and space
insensitivity are instances (see the witness). -/
theorem get_anagrams_equiv (lines : List (List Char)) (A B : List Char)
    (hAB : anagram_hash A = anagram_hash B) :
    get_anagrams (buildIndex lines) A = get_anagrams (buildIndex lines) B ∧
    ∀ k ws, lookup (buildIndex lines) k = some ws → A ∈ ws →
      ∃ ws', get_anagrams (buildIndex lines) B = some ws' ∧ A ∈ ws' := by
  constructor
  · rw [get_anagrams, get_anagrams, hAB]
  · intro k ws hk hA
    have hws := lookup_buildIndex_some hk
    have hAk : anagram_hash A = k := by
      rw [hws] at hA
      exact of_decide_eq_true (List.mem_filter.1 hA).2
    refine ⟨ws, ?_, hA⟩
    rw [get_anagrams, ← hAB, hAk]
    exact hk

/-- Witness for C3: on the index over `FooBar`, `foobar`, the queries
`foobaR` and `FOOBAR` agree, and the bucket of `FOOBAR` contains the
stored `FooBar`. -/
theorem get_anagrams_equiv_witness :
    get_anagrams (buildIndex ["FooBar\n".data, "foobar\n".data]) "foobaR".data =
      get_anagrams (buildIndex ["FooBar\n".data, "foobar\n".data]) "FOOBAR".data ∧
    ∃ ws', get_anagrams (buildIndex ["FooBar\n".data, "foobar\n".data]) "FOOBAR".data =
      some ws' ∧ "FooBar".data ∈ ws' := by
  constructor
  · exact (get_anagrams_equiv ["FooBar\n".data, "foobar\n".data]
      "foobaR".data "FOOBAR".data (by decide)).1
  · exact (get_anagrams_equiv ["FooBar\n".data, "foobar\n".data]
      "FooBar".data "FOOBAR".data (by decide)).2
      "abfoor".data ["FooBar".data, "foobar".data] (by decide) (by decide)

/-- Claim C4: `get_anagrams` is a total function returning either the
full stored bucket or `none`, and no bucket of a built index is empty,
so a `some []` result is impossible. -/
theorem get_anagrams_no_empty_bucket (lines : List (List Char)) (w : List Char) :
    (∀ ws, get_anagrams (buildIndex lines) w = some ws → ws ≠ []) ∧
    ∀ p ∈ buildIndex lines, p.2 ≠ [] := by
  have hne : ∀ p ∈ buildIndex lines, p.2 ≠ [] :=
    buckets_nonempty_foldl lines [] (by intro p hp; cases hp)
  refine ⟨?_, hne⟩
  intro ws hws
  exact hne _ (lookup_mem hws)

/-- Witness for C4 on the one-line source `hi` queried with `ih`. -/
theorem get_anagrams_no_empty_bucket_witness : ([['h', 'i']] : List (List Char)) ≠ [] :=
  (get_anagrams_no_empty_bucket [['h', 'i']] ['i', 'h']).1 [['h', 'i']] (by decide)

/-- Claim C5: the spec's concrete scenario over the seven sample lines,
including that `randa-` (one hyphen) finds nothing — hyphens are kept by
canonicalization and must match in count. -/
theorem sample_scenario :
    get_anagrams (buildIndex sampleLines) "dictionary".data =
      some ["dictionary".data, "indicatory".data] ∧
    get_anagrams (buildIndex sampleLines) "tea spoon".data =
      some ["tea spoon".data, "teaspoon".data] ∧
    get_anagrams (buildIndex sampleLines) "foobaR".data =
      some ["FooBar".data, "foobar".data] ∧
    get_anagrams (buildIndex sampleLines) "randa--".data = some ["A-and-R".data] ∧
    get_anagrams (buildIndex sampleLines) "randa-".data = none ∧
    get_anagrams (buildIndex sampleLines) "fizzbang".data = none := by
  decide

/-- Claim C6: a source that is neither valid gzip nor decodable text
makes construction fail with the `RuntimeError` whose message is exactly
`Unsupported file <path>`, and the failed construction yields an error,
not an index (atomicity is the error branch of `Except`). -/
theorem unsupported_file_format_error (path : List Char) :
    anagramsInit path .undecodable =
      .error (.runtimeError ("Unsupported file ".data ++ path)) ∧
    isFormatError (.runtimeError ("Unsupported file ".data ++ path)) = true :=
  ⟨rfl, rfl⟩

/-- Counterexample to C7: a valid gzip file whose decompressed bytes are
not UTF-8 (here the line `[104, 105]` then the invalid byte `255`) makes
construction fail with `UnicodeDecodeError` — `str(word, 'utf-8')` at
line 42 is guarded only against `TypeError` — which is not the
`FormatError` (`RuntimeError`) the claim promises. -/
theorem gzip_decode_error_counterexample :
    anagramsInit "words.txt.gz".data (.gzipped [[104, 105], [255]]) =
      .error .unicodeDecodeError ∧
    isFormatError .unicodeDecodeError = false :=
  ⟨rfl, rfl⟩

/-- Claim C7 as amended: a line that fails UTF-8 decoding always aborts
construction (never silently skipped), but on the gzip path the failure
surfaces as `UnicodeDecodeError`, not as the `FormatError`; plain-text
decoding failures fail earlier, inside `read_file`. -/
theorem gzip_decode_failure_aborts (path : List Char) (byteLines : List (List Nat))
    (h : ∃ bs ∈ byteLines, utf8Decode bs = none) :
    anagramsInit path (.gzipped byteLines) = .error .unicodeDecodeError := by
  suffices hgen : ∀ (bls : List (List Nat)) (idx : Index),
      (∃ bs ∈ bls, utf8Decode bs = none) →
      processLines idx (bls.map SourceLine.bytes) = .error .unicodeDecodeError by
    exact hgen byteLines [] h
  intro bls
  induction bls with
  | nil =>
    rintro idx ⟨bs, h1, _⟩
    cases h1
  | cons b bls ih =>
    rintro idx ⟨bs, hmem, hnone⟩
    simp only [List.map_cons, processLines, decodeLine]
    cases hb : utf8Decode b with
    | none => rfl
    | some s =>
      rcases List.mem_cons.1 hmem with rfl | hmem'
      · rw [hb] at hnone
        cases hnone
      · exact ih _ ⟨bs, hmem', hnone⟩

/-- Witness for the amended C7: the gzip payload line `[200]` (a lone
two-byte lead) fails decoding and construction errors out. -/
theorem gzip_decode_failure_aborts_witness :
    anagramsInit "words.bin".data (.gzipped [[200]]) = .error .unicodeDecodeError :=
  gzip_decode_failure_aborts "words.bin".data [[200]] ⟨[200], by decide, by decide⟩

/-- Counterexample to C8: on the index built from the single line
`dictionary\n`, querying `dictionary` with a trailing newline attached
does not return the same result as querying `dictionary` —
`get_anagrams` hashes its argument without stripping the newline. -/
theorem lookup_newline_counterexample :
    get_anagrams (buildIndex ["dictionary\n".data]) ("dictionary".data ++ ['\n']) ≠
      get_anagrams (buildIndex ["dictionary\n".data]) "dictionary".data := by
  decide

/-- Claim C8 as amended: only construction strips the line terminator;
`get_anagrams` hashes the query as-is, so any query containing a newline
character matches no bucket (all keys are newline-free) and returns
`none`, in general differing from the query without the newline. -/
theorem get_anagrams_newline_query (lines : List (List Char)) (q : List Char)
    (h : '\n' ∈ q) : get_anagrams (buildIndex lines) q = none := by
  rw [get_anagrams, lookup_buildIndex_none, List.filter_eq_nil_iff]
  intro w hw
  rw [List.mem_map] at hw
  obtain ⟨l, _, rfl⟩ := hw
  intro hdec
  have hk : anagram_hash (stripNewlines l) = anagram_hash q := of_decide_eq_true hdec
  exact newline_not_mem_anagram_hash (newline_not_mem_stripNewlines l)
    (hk ▸ newline_mem_anagram_hash h)

/-- Witness for the amended C8: querying `ba\n` against the index built
from `ab\n` finds nothing. -/
theorem get_anagrams_newline_query_witness :
    get_anagrams (buildIndex ["ab\n".data]) "ba\n".data = none :=
  get_anagrams_newline_query ["ab\n".data] "ba\n".data (by decide)

/-- Claim C9: over any sequence of lines (newline only as terminator),
each bucket of the built index is exactly the subsequence of stored words
— the lines minus their trailing newline, original casing and spacing
kept — whose canonical key is the bucket's key, in source order with
duplicates preserved; and a key with no matching word has no bucket. -/
theorem buildIndex_bucket_exact (lines : List (List Char))
    (hl : ∀ l ∈ lines, '\n' ∉ l.dropLast) (k : List Char) :
    (∀ ws, lookup (buildIndex lines) k = some ws →
      ws = (lines.map removeTrailingNewline).filter
        (fun w => decide (anagram_hash w = k))) ∧
    (lookup (buildIndex lines) k = none →
      (lines.map removeTrailingNewline).filter
        (fun w => decide (anagram_hash w = k)) = []) := by
  have hmap : lines.map stripNewlines = lines.map removeTrailingNewline :=
    List.map_congr_left (fun l hl' => stripNewlines_eq_removeTrailingNewline l (hl l hl'))
  constructor
  · intro ws hws
    rw [lookup_buildIndex_some hws, hmap]
  · intro hn
    rw [← hmap]
    exact lookup_buildIndex_none.1 hn

/-- Witness for C9 on the two-line source `ab`, `ba` at the key `ab`. -/
theorem buildIndex_bucket_exact_witness :
    ["ab".data, "ba".data] =
      (["ab\n".data, "ba\n".data].map removeTrailingNewline).filter
        (fun w => decide (anagram_hash w = ['a', 'b'])) :=
  (buildIndex_bucket_exact ["ab\n".data, "ba\n".data] (by decide) ['a', 'b']).1
    ["ab".data, "ba".data] (by decide)
